import Mathlib

/-!
Shallow embedding of `sigswtool/jmdict-simple` (the `convert` script and
`src/update.js`) and proofs about it.

Strings are modelled as Lean `String`s; the JS string methods used by the
repository (`startsWith`, `endsWith`, `replace` over a character class) and
the Node `path.join` normalisation are embedded as executable functions over
the character list of a `String`.  All codepoints involved lie in the BMP, so
a JS UTF-16 code unit corresponds to one `Char` here.
-/

set_option autoImplicit false

namespace JmdictSimple

/-! ## Definitions -/

/-- Model of JS `s.startsWith(p)`. -/
def jsStartsWith (s p : String) : Bool := p.data.isPrefixOf s.data

/-- Model of JS `s.endsWith(p)`. -/
def jsEndsWith (s p : String) : Bool := p.data.isSuffixOf s.data

/-- One step of the regex replacement on line 73 of the convert script:
a code unit in U+3040..U+309F is replaced by the unit + 0x60, anything
else is kept. -/
def kataShiftChar (c : Char) : Char :=
  if 0x3040 ≤ c.toNat ∧ c.toNat ≤ 0x309F then Char.ofNat (c.toNat + 0x60) else c

/-- Model of `kana.text.replace(/[぀-ゟ]/g, m => String.fromCharCode(m.charCodeAt(0) + 0x60))`
(convert script, line 73). -/
def hiraganaToKatakana (s : String) : String := ⟨s.data.map kataShiftChar⟩

/-- The JS value shapes reaching `fs.existsSync` in the convert script. -/
inductive JSVal where
  | str (s : String)
  | bool (b : Bool)

/-- Model of JS strict equality `===` restricted to the value shapes used
here: values of different types are never strictly equal. -/
def jsStrictEq : JSVal → JSVal → Bool
  | .str a, .str b => a == b
  | .bool a, .bool b => a == b
  | _, _ => false

/-- Model of `fs.existsSync`: on a string it consults the filesystem (an
arbitrary predicate `fsExists`); on any non-string argument it returns
`false` (Node catches the argument-type error internally). -/
def existsSyncJS (fsExists : String → Bool) : JSVal → Bool
  | .str s => fsExists s
  | _ => false

/-- The module-level constant `releaseFolder` of the convert script, line 10. -/
def releaseFolder : String := "../release"

/-- The condition of the guard on line 45 of the convert script:
`fs.existsSync(releaseFolder === false)`. -/
def releaseFolderGuard (fsExists : String → Bool) : Bool :=
  existsSyncJS fsExists (JSVal.bool (jsStrictEq (JSVal.str releaseFolder) (JSVal.bool false)))

/-- A release asset as used by `getAsset` (`src/update.js`). -/
structure Asset where
  name : String
  browser_download_url : String
deriving DecidableEq

/-- JS truthiness of the optional filter arguments of `getAsset`:
`undefined`/`null` and the empty string are falsy. -/
def optTruthy (o : Option String) : Bool :=
  match o with
  | none => false
  | some s => !(s == "")

/-- The filter predicate of `getAsset` (`src/update.js`, lines 102..113):
`prefixMatch`/`extensionMatch` start `true` and are overwritten only when the
corresponding argument is truthy. -/
def assetMatches (pre ext : Option String) (a : Asset) : Bool :=
  (if optTruthy pre then jsStartsWith a.name (pre.getD "") else true) &&
  (if optTruthy ext then jsEndsWith a.name (ext.getD "") else true)

/-- The 2xx branch of `getAsset` (`src/update.js`, lines 94..118): `none` for
a response without an asset list, `none` for an empty list, otherwise the
first asset passing the filter, or `none` when no asset passes. -/
def getAssetSelect (assets : Option (List Asset)) (pre ext : Option String) : Option Asset :=
  match assets with
  | none => none
  | some l =>
    if l.isEmpty then none
    else (l.filter (assetMatches pre ext)).head?

/-- The kinds of HTTP responses distinguished by `doDownload`
(`src/update.js`, lines 158..198): a 2xx response, a 3xx response carrying a
`Location` header, and anything else (other statuses or transport errors). -/
inductive HttpResp where
  | ok
  | redir
  | err
deriving DecidableEq

/-- Segments of a POSIX path, split at `/` (model of how Node's
`path.join`/`normalize` tokenises its input). -/
def splitSlashAux : List Char → List Char → List String
  | [], acc => [String.mk acc.reverse]
  | c :: rest, acc =>
    if c = '/' then String.mk acc.reverse :: splitSlashAux rest []
    else splitSlashAux rest (c :: acc)

def pathSegs (s : String) : List String := splitSlashAux s.data []

/-- Normalisation of the segments of an absolute path: empty and `.`
segments vanish, `..` pops the previous segment (and is dropped at the
root), as Node's `path.normalize` does for absolute paths. -/
def normSegsAux : List String → List String → List String
  | acc, [] => acc
  | acc, s :: rest =>
    if s = "" ∨ s = "." then normSegsAux acc rest
    else if s = ".." then normSegsAux acc.dropLast rest
    else normSegsAux (acc ++ [s]) rest

/-- Model of Node `path.join(a, b)` for an absolute `a`: concatenate the
segments and normalise.  (Trailing separators are not preserved; no claim
depends on them.) -/
def pathJoin (a b : String) : String :=
  "/" ++ String.intercalate "/" (normSegsAux [] ((pathSegs a).drop 1 ++ pathSegs b))

/-- Model of `path.join(downloadDir, fileName)` followed by the recursive
`doDownload` of `src/update.js`, lines 158..198: the response chain is
consumed hop by hop; a count above 5 fails, a 2xx resolves the written file
path, a 3xx with `Location` recurses with count + 1, anything else fails. -/
def doDownload (downloadDir fileName : String) : List HttpResp → Nat → Option String
  | chain, redirectCount =>
    if 5 < redirectCount then none
    else
      match chain with
      | [] => none
      | .ok :: _ => some (pathJoin downloadDir fileName)
      | .redir :: rest => doDownload downloadDir fileName rest (redirectCount + 1)
      | .err :: _ => none

/-- `downloadAsset` starts `doDownload` with a redirect count of 0
(`src/update.js`, lines 158 and 201). -/
def downloadAsset (downloadDir fileName : String) (chain : List HttpResp) : Option String :=
  doDownload downloadDir fileName chain 0

/-- A response chain of `k` redirect hops followed by a 2xx response. -/
def redirectChain (k : Nat) : List HttpResp :=
  List.replicate k HttpResp.redir ++ [HttpResp.ok]

/-- The entry types distinguished by `unpackAsset`'s `onentry` callback
(`src/update.js`, line 234). -/
inductive EntryType where
  | file
  | dir
  | other
deriving DecidableEq

/-- An archive entry: its path inside the archive and its type. -/
structure TarEntry where
  path : String
  type : EntryType
deriving DecidableEq

/-- The `filter` callback of `unpackAsset` (`src/update.js`, lines 238..245):
`path.join(destinationDir, filePath).startsWith(destinationDir)`; an entry is
extracted exactly when this is `true`, otherwise it is skipped with a
warning. -/
def tarFilter (destinationDir filePath : String) : Bool :=
  jsStartsWith (pathJoin destinationDir filePath) destinationDir

/-- The entries the extractor keeps (those passing `tarFilter`); skipped
entries are not written and the remaining entries are still processed. -/
def keptEntries (destinationDir : String) (entries : List TarEntry) : List TarEntry :=
  entries.filter (fun e => tarFilter destinationDir e.path)

/-- The filename list collected by `onentry` (`src/update.js`, lines
233..237): the path of every kept entry of type `File` or `Directory`, in
encounter order. -/
def extractNames (destinationDir : String) (entries : List TarEntry) : List String :=
  ((keptEntries destinationDir entries).filter
    (fun e => e.type == EntryType.file || e.type == EntryType.dir)).map TarEntry.path

/-- Modelled from the spec: the candidate output path escapes the
destination directory when it is neither the directory itself nor located
under it (`destinationDir` followed by a separator). -/
def escapesDest (destinationDir candidate : String) : Bool :=
  !(candidate == destinationDir || jsStartsWith candidate (destinationDir ++ "/"))

/-- The final selection of `update` (`src/update.js`, line 65):
`(Array.isArray(files) && files.length > 0) ? files[0] : null`. -/
def chooseSourceFile : Option (List String) → Option String
  | some (f :: _) => some f
  | _ => none

/-- Modelled from the spec: the first *file*-type entry of the extraction
sequence (what the spec says `update` treats as the canonical source). -/
def firstFileName (destinationDir : String) (entries : List TarEntry) : Option String :=
  (((keptEntries destinationDir entries).filter
    (fun e => e.type == EntryType.file)).map TarEntry.path).head?

/-- One bucket of the hiragana index of the convert script (line 75):
`{ katakana: new Set(), kanji: new Set() }`.  A JS `Set` is modelled as a
duplicate-free list in insertion order. -/
structure Bucket where
  katakana : List String
  kanji : List String
deriving DecidableEq

/-- The `h2kk` accumulator of the convert script (line 63): a JS object,
modelled as an association list in key-insertion order. -/
abbrev Index := List (String × Bucket)

/-- Model of `Set.prototype.add`: append the element unless present. -/
def addToSet (s : List String) (x : String) : List String :=
  if x ∈ s then s else s ++ [x]

/-- A dictionary entry as read by the convert script (lines 66..67): the
`text` fields of `entry.kanji` and `entry.kana`, each of which may be
absent. -/
structure DictEntry where
  kanji : Option (List String)
  kana : Option (List String)
deriving DecidableEq

/-- `entry.kanji || []` followed by `.map(k => k.text)` (lines 66, 69). -/
def kanjiListOf (e : DictEntry) : List String := e.kanji.getD []

/-- `entry.kana || []` (line 67). -/
def kanaListOf (e : DictEntry) : List String := e.kana.getD []

/-- Lines 74..76 of the convert script: create the bucket on first use. -/
def ensureBucket (idx : Index) (k : String) : Index :=
  if (idx.lookup k).isSome then idx else idx ++ [(k, ⟨[], []⟩)]

/-- Lines 78..79 of the convert script: add the derived katakana form and
every kanji of the entry to the bucket. -/
def addToBucket (kata : String) (kanjiList : List String) (b : Bucket) : Bucket :=
  { katakana := addToSet b.katakana kata, kanji := kanjiList.foldl addToSet b.kanji }

/-- In-place mutation of the bucket stored under key `k`. -/
def modifyBucket (idx : Index) (k : String) (f : Bucket → Bucket) : Index :=
  idx.map (fun p => if p.1 = k then (p.1, f p.2) else p)

/-- The body of `kanaElements.forEach` (lines 71..80). -/
def processKana (kanjiList : List String) (idx : Index) (hira : String) : Index :=
  modifyBucket (ensureBucket idx hira) hira (addToBucket (hiraganaToKatakana hira) kanjiList)

/-- The body of `jmdictData.words.forEach` (lines 65..81). -/
def processEntry (idx : Index) (e : DictEntry) : Index :=
  (kanaListOf e).foldl (processKana (kanjiListOf e)) idx

/-- The whole index-building pass of `convert` (lines 63..81). -/
def buildIndex (words : List DictEntry) : Index :=
  words.foldl processEntry []

def indexKeys (idx : Index) : List String := idx.map Prod.fst

/-- The invariant of claim C2: each key appears at most once, and both sets
of every bucket are duplicate-free. -/
def IndexOK (idx : Index) : Prop :=
  (indexKeys idx).Nodup ∧ ∀ p ∈ idx, p.2.katakana.Nodup ∧ p.2.kanji.Nodup

/-- Two buckets with the same membership, arrays possibly reordered. -/
def bucketEquiv (b1 b2 : Bucket) : Prop :=
  (∀ x, x ∈ b1.katakana ↔ x ∈ b2.katakana) ∧ (∀ x, x ∈ b1.kanji ↔ x ∈ b2.kanji)

/-- Equality of `words` content up to reordering inside each bucket. -/
def wordsEquiv (i1 i2 : Index) : Prop :=
  indexKeys i1 = indexKeys i2 ∧
  ∀ k, (i1.lookup k = none ∧ i2.lookup k = none) ∨
    ∃ b1 b2, i1.lookup k = some b1 ∧ i2.lookup k = some b2 ∧ bucketEquiv b1 b2

/-- The module-level constant of the convert script, line 12. -/
def createGzipVersion : Bool := true

/-- The `finish` handler of the gzip pipeline (convert script, lines
111..118): `if (error) resolve(false)` else `resolve(true)`. -/
def gzipFinishHandler (error : Option String) : Bool :=
  match error with
  | some _ => false
  | none => true

/-- The write stage of `convert` (lines 100..119).  `some b` means the
promise resolves `b`; `none` means it never resolves.  A `finish` event
carries no argument, so the handler is invoked with `none`; a stream error
has no `error` listener on this pipeline, so the promise is never
resolved. -/
def writeStage (writeError createGzip gzipStreamError : Bool) : Option Bool :=
  if writeError then some false
  else if createGzip = false then some true
  else if gzipStreamError then none
  else some (gzipFinishHandler none)

/-- A kanji-only demonstration entry (no kana reading). -/
def demoKanjiOnly : DictEntry := ⟨some ["愛"], none⟩

/-- A demonstration entry with a kana reading. -/
def demoWithKana : DictEntry := ⟨some ["愛"], some ["あい"]⟩

/-! ## Theorems -/

theorem jsStartsWith_empty_right (s : String) : jsStartsWith s "" = true := by
  simp [jsStartsWith, List.isPrefixOf]

theorem jsEndsWith_empty_right (s : String) : jsEndsWith s "" = true := by
  simp [jsEndsWith, List.isSuffixOf, List.isPrefixOf]

theorem filter_head?_eq_find? {α : Type} (p : α → Bool) (l : List α) :
    (l.filter p).head? = l.find? p := by
  induction l with
  | nil => rfl
  | cons a t ih => by_cases h : p a <;> simp [List.filter, List.find?, h, ih]

/-- Claim C1: for every kana reading string, the derived katakana form is
obtained by replacing every character whose codepoint lies in U+3040..U+309F
with the character at codepoint + 0x60 and leaving every other character
unchanged; in particular `"あい"` maps to `"アイ"` and `"ABC"` to `"ABC"`. -/
theorem katakana_shift_spec :
    (∀ (s : String) (i : Nat),
      (hiraganaToKatakana s).data.length = s.data.length ∧
      (hiraganaToKatakana s).data[i]? =
        (s.data[i]?).map (fun c =>
          if 0x3040 ≤ c.toNat ∧ c.toNat ≤ 0x309F then Char.ofNat (c.toNat + 0x60) else c)) ∧
    hiraganaToKatakana "あい" = "アイ" ∧ hiraganaToKatakana "ABC" = "ABC" := by
  refine ⟨fun s i => ⟨?_, ?_⟩, by decide, by decide⟩
  · simp [hiraganaToKatakana]
  · simp only [hiraganaToKatakana, List.getElem?_map]
    rfl

/-- Claim C9: the release-folder existence guard is vacuous: the tested
expression is `existsSync(releaseFolder === false)`, the strict equality is
`false`, `existsSync` of the boolean `false` is `false` for every filesystem
state, so the failure branch is unreachable. -/
theorem release_guard_vacuous :
    jsStrictEq (JSVal.str releaseFolder) (JSVal.bool false) = false ∧
    ∀ fsExists : String → Bool, releaseFolderGuard fsExists = false := by
  exact ⟨rfl, fun _ => rfl⟩

/-- Claim C7: on a 2xx metadata response the resolver returns the first asset
in listed order whose name satisfies (prefix absent OR name starts with
prefix) AND (suffix absent OR name ends with suffix), and returns `none`
exactly when the response carries no assets, the list is empty, or no asset
matches both filters. -/
theorem getAsset_first_match (assets : Option (List Asset)) (pre ext : Option String) :
    (∀ a : Asset, assetMatches pre ext a = true ↔
      ((pre = none ∨ jsStartsWith a.name (pre.getD "") = true) ∧
       (ext = none ∨ jsEndsWith a.name (ext.getD "") = true))) ∧
    getAssetSelect assets pre ext = (assets.getD []).find? (assetMatches pre ext) ∧
    (getAssetSelect assets pre ext = none ↔
      ∀ a ∈ assets.getD [], assetMatches pre ext a = false) := by
  have hmatch : ∀ a : Asset, assetMatches pre ext a = true ↔
      ((pre = none ∨ jsStartsWith a.name (pre.getD "") = true) ∧
       (ext = none ∨ jsEndsWith a.name (ext.getD "") = true)) := by
    intro a
    have h1 : (if optTruthy pre then jsStartsWith a.name (pre.getD "") else true) = true ↔
        (pre = none ∨ jsStartsWith a.name (pre.getD "") = true) := by
      rcases pre with _ | p
      · simp [optTruthy]
      · by_cases hp : p = ""
        · subst hp; simp [optTruthy, jsStartsWith_empty_right]
        · simp [optTruthy, hp]
    have h2 : (if optTruthy ext then jsEndsWith a.name (ext.getD "") else true) = true ↔
        (ext = none ∨ jsEndsWith a.name (ext.getD "") = true) := by
      rcases ext with _ | e
      · simp [optTruthy]
      · by_cases he : e = ""
        · subst he; simp [optTruthy, jsEndsWith_empty_right]
        · simp [optTruthy, he]
    simp only [assetMatches, Bool.and_eq_true]
    rw [h1, h2]
  have hsel : getAssetSelect assets pre ext = (assets.getD []).find? (assetMatches pre ext) := by
    rcases assets with _ | l
    · rfl
    · rcases l with _ | ⟨a, t⟩
      · rfl
      · simp [getAssetSelect, filter_head?_eq_find?]
  refine ⟨hmatch, hsel, ?_⟩
  rw [hsel, List.find?_eq_none]
  simp

theorem doDownload_stop (d f : String) (chain : List HttpResp) (n : Nat) (h : 5 < n) :
    doDownload d f chain n = none := by
  rw [doDownload.eq_def]
  simp [h]

theorem doDownload_redir_step (d f : String) (rest : List HttpResp) (n : Nat) (h : ¬ 5 < n) :
    doDownload d f (HttpResp.redir :: rest) n = doDownload d f rest (n + 1) := by
  conv_lhs => rw [doDownload.eq_def]
  simp [h]

theorem doDownload_ok_head (d f : String) (rest : List HttpResp) (n : Nat) (h : ¬ 5 < n) :
    doDownload d f (HttpResp.ok :: rest) n = some (pathJoin d f) := by
  rw [doDownload.eq_def]
  simp [h]

theorem doDownload_none_of_ge (d f : String) :
    ∀ (k n : Nat) (rest : List HttpResp), 6 ≤ n + k →
      doDownload d f (List.replicate k HttpResp.redir ++ rest) n = none := by
  intro k
  induction k with
  | zero =>
    intro n rest h
    simp only [List.replicate, List.nil_append]
    exact doDownload_stop d f rest n (by omega)
  | succ k ih =>
    intro n rest h
    by_cases h5 : 5 < n
    · exact doDownload_stop _ _ _ _ h5
    · rw [List.replicate_succ, List.cons_append, doDownload_redir_step d f _ n h5]
      exact ih (n + 1) rest (by omega)

theorem doDownload_consume (d f : String) :
    ∀ (k n : Nat) (rest : List HttpResp), n + k ≤ 5 →
      doDownload d f (List.replicate k HttpResp.redir ++ rest) n = doDownload d f rest (n + k) := by
  intro k
  induction k with
  | zero =>
    intro n rest h
    simp
  | succ k ih =>
    intro n rest h
    rw [List.replicate_succ, List.cons_append, doDownload_redir_step d f _ n (by omega)]
    rw [ih (n + 1) rest (by omega)]
    congr 1
    omega

/-- Claim C4: a response chain of 6 or more redirect hops makes the download
fail with the too-many-redirects result (`none`), while a chain of 5 or
fewer redirect hops followed by a 2xx response succeeds and returns the
written file path. -/
theorem download_redirect_bound (k : Nat) (downloadDir fileName : String) :
    (6 ≤ k → downloadAsset downloadDir fileName (redirectChain k) = none) ∧
    (k ≤ 5 → downloadAsset downloadDir fileName (redirectChain k) =
      some (pathJoin downloadDir fileName)) := by
  constructor
  · intro h
    exact doDownload_none_of_ge _ _ k 0 [HttpResp.ok] (by omega)
  · intro h
    unfold downloadAsset redirectChain
    rw [doDownload_consume _ _ k 0 _ (by omega)]
    exact doDownload_ok_head _ _ _ _ (by omega)

/-- Witness for C4 at 6 and at 5 redirect hops. -/
theorem download_redirect_bound_witness :
    downloadAsset "/data" "f.tgz" (redirectChain 6) = none ∧
    downloadAsset "/data" "f.tgz" (redirectChain 5) = some (pathJoin "/data" "f.tgz") :=
  ⟨(download_redirect_bound 6 "/data" "f.tgz").1 (by decide),
   (download_redirect_bound 5 "/data" "f.tgz").2 (by decide)⟩

/-- Claim C3 counterexample: with destination `/data`, the archive entry
`../database/evil` has a candidate output path `/database/evil` that escapes
the destination directory, yet the filter accepts it (the guard is a plain
string-prefix test), so the entry is extracted rather than skipped. -/
theorem traversal_guard_counterexample :
    escapesDest "/data" (pathJoin "/data" "../database/evil") = true ∧
    tarFilter "/data" "../database/evil" = true ∧
    keptEntries "/data" [⟨"../database/evil", EntryType.file⟩] =
      [⟨"../database/evil", EntryType.file⟩] := by
  exact ⟨by decide, by decide, by decide⟩

/-- Claim C3 (amended): an entry is skipped, without aborting the other
entries, exactly when its joined candidate path fails the string-prefix test
against the destination directory; in particular `../../etc/passwd` fails
the test and is skipped while its sibling entries are still extracted.  (An
escaping path whose joined form shares the destination directory as a string
prefix passes the test and is not skipped.) -/
theorem traversal_guard_prefix_check :
    (∀ (destinationDir : String) (entries : List TarEntry) (e : TarEntry),
      e ∈ keptEntries destinationDir entries ↔
        e ∈ entries ∧ tarFilter destinationDir e.path = true) ∧
    tarFilter "/data" "../../etc/passwd" = false ∧
    keptEntries "/data"
        [⟨"a.json", EntryType.file⟩, ⟨"../../etc/passwd", EntryType.file⟩,
         ⟨"b.json", EntryType.file⟩] =
      [⟨"a.json", EntryType.file⟩, ⟨"b.json", EntryType.file⟩] := by
  refine ⟨fun d es e => ?_, by decide, by decide⟩
  simp [keptEntries, List.mem_filter]

/-- Claim C5 counterexample: when the first extracted entry is a directory,
`update` returns that directory path, not the first file-type entry of the
sequence. -/
theorem first_entry_counterexample :
    chooseSourceFile (some (extractNames "/data"
        [⟨"jmdict/", EntryType.dir⟩, ⟨"jmdict/jmdict-all.json", EntryType.file⟩])) =
      some "jmdict/" ∧
    firstFileName "/data"
        [⟨"jmdict/", EntryType.dir⟩, ⟨"jmdict/jmdict-all.json", EntryType.file⟩] =
      some "jmdict/jmdict-all.json" ∧
    ("jmdict/" : String) ≠ "jmdict/jmdict-all.json" := by
  exact ⟨by decide, by decide, by decide⟩

/-- Claim C5 (amended): `update` returns the head of the extraction sequence
regardless of entry type — file or directory — and `none` when the sequence
is missing or empty. -/
theorem update_returns_first_entry :
    (∀ files : List String, chooseSourceFile (some files) = files.head?) ∧
    chooseSourceFile none = none ∧
    (∀ (destinationDir : String) (entries : List TarEntry),
      chooseSourceFile (some (extractNames destinationDir entries)) =
        (extractNames destinationDir entries).head?) := by
  have h1 : ∀ files : List String, chooseSourceFile (some files) = files.head? := by
    intro files
    cases files <;> rfl
  exact ⟨h1, rfl, fun d es => h1 _⟩

theorem nodup_append_singleton {α : Type} {l : List α} {a : α}
    (h : l.Nodup) (ha : a ∉ l) : (l ++ [a]).Nodup := by
  refine List.Nodup.append h (List.nodup_singleton a) ?_
  intro x hx hxa
  rw [List.mem_singleton] at hxa
  subst hxa
  exact ha hx

theorem addToSet_nodup {s : List String} {x : String} (h : s.Nodup) :
    (addToSet s x).Nodup := by
  unfold addToSet
  split
  · exact h
  · rename_i hx
    exact nodup_append_singleton h hx

theorem mem_addToSet_self (s : List String) (x : String) : x ∈ addToSet s x := by
  by_cases h : x ∈ s <;> simp [addToSet, h]

theorem foldl_addToSet_nodup (ks : List String) :
    ∀ s : List String, s.Nodup → (ks.foldl addToSet s).Nodup := by
  induction ks with
  | nil => intro s h; exact h
  | cons a t ih => intro s h; exact ih _ (addToSet_nodup h)

theorem lookup_eq_none_iff (idx : Index) (k : String) :
    idx.lookup k = none ↔ k ∉ indexKeys idx := by
  induction idx with
  | nil => simp [indexKeys]
  | cons p t ih =>
    obtain ⟨a, b⟩ := p
    by_cases h : k = a
    · subst h
      simp [List.lookup, indexKeys]
    · have hba : (k == a) = false := by simp [h]
      simp [List.lookup, hba, indexKeys, ih, h]

theorem indexKeys_ensureBucket_nodup {idx : Index} {k : String}
    (h : (indexKeys idx).Nodup) : (indexKeys (ensureBucket idx k)).Nodup := by
  unfold ensureBucket
  split
  · exact h
  · rename_i hn
    have hk : k ∉ indexKeys idx := by
      rw [← lookup_eq_none_iff]
      cases hcase : idx.lookup k with
      | none => rfl
      | some b => rw [hcase] at hn; simp at hn
    have : indexKeys (idx ++ [(k, (⟨[], []⟩ : Bucket))]) = indexKeys idx ++ [k] := by
      simp [indexKeys]
    rw [this]
    exact nodup_append_singleton h hk

theorem indexKeys_modifyBucket (idx : Index) (k : String) (f : Bucket → Bucket) :
    indexKeys (modifyBucket idx k f) = indexKeys idx := by
  induction idx with
  | nil => rfl
  | cons p t ih =>
    simp only [modifyBucket, indexKeys, List.map_cons] at ih ⊢
    by_cases h : p.1 = k <;> simp [h, ih]

theorem mem_ensureBucket {idx : Index} {k : String} {p : String × Bucket}
    (h : p ∈ ensureBucket idx k) : p ∈ idx ∨ p = (k, (⟨[], []⟩ : Bucket)) := by
  unfold ensureBucket at h
  split at h
  · exact Or.inl h
  · rcases List.mem_append.1 h with h1 | h1
    · exact Or.inl h1
    · right; simpa using h1

theorem mem_modifyBucket {idx : Index} {k : String} {f : Bucket → Bucket} {p : String × Bucket}
    (h : p ∈ modifyBucket idx k f) :
    (∃ q ∈ idx, p = q) ∨ (∃ q ∈ idx, p = (q.1, f q.2)) := by
  unfold modifyBucket at h
  rcases List.mem_map.1 h with ⟨q, hq, hpq⟩
  by_cases hk : q.1 = k
  · right
    refine ⟨q, hq, ?_⟩
    rw [← hpq]
    simp [hk]
  · left
    refine ⟨q, hq, ?_⟩
    rw [← hpq]
    simp [hk]

theorem indexOK_ensureBucket {idx : Index} {k : String} (h : IndexOK idx) :
    IndexOK (ensureBucket idx k) := by
  obtain ⟨hk, hb⟩ := h
  refine ⟨indexKeys_ensureBucket_nodup hk, ?_⟩
  intro p hp
  rcases mem_ensureBucket hp with h1 | h1
  · exact hb p h1
  · subst h1
    exact ⟨List.nodup_nil, List.nodup_nil⟩

theorem indexOK_modifyBucket_add {idx : Index} {k kata : String} {ks : List String}
    (h : IndexOK idx) : IndexOK (modifyBucket idx k (addToBucket kata ks)) := by
  obtain ⟨hk, hb⟩ := h
  refine ⟨by rw [indexKeys_modifyBucket]; exact hk, ?_⟩
  intro p hp
  rcases mem_modifyBucket hp with ⟨q, hq, hpq⟩ | ⟨q, hq, hpq⟩
  · subst hpq
    exact hb p hq
  · subst hpq
    obtain ⟨h1, h2⟩ := hb q hq
    exact ⟨addToSet_nodup h1, foldl_addToSet_nodup ks _ h2⟩

theorem indexOK_processKana {ks : List String} {idx : Index} {hira : String}
    (h : IndexOK idx) : IndexOK (processKana ks idx hira) :=
  indexOK_modifyBucket_add (indexOK_ensureBucket h)

theorem foldl_preserve {α β : Type} {P : α → Prop} {f : α → β → α}
    (hf : ∀ a b, P a → P (f a b)) : ∀ (l : List β) (a : α), P a → P (l.foldl f a) := by
  intro l
  induction l with
  | nil => intro a h; exact h
  | cons x t ih => intro a h; exact ih _ (hf a x h)

theorem indexOK_processEntry {idx : Index} {e : DictEntry} (h : IndexOK idx) :
    IndexOK (processEntry idx e) :=
  foldl_preserve (fun _ _ ha => indexOK_processKana ha) _ _ h

theorem indexOK_nil : IndexOK [] := by
  refine ⟨by simp [indexKeys], ?_⟩
  intro p hp
  cases hp

/-- Claim C2: for every dictionary input the built index maps each hiragana
key to at most one bucket (the key list is duplicate-free), within each
bucket the katakana and kanji collections contain no duplicate members, and
repeatedly adding an element to a set leaves the membership unchanged. -/
theorem buildIndex_dedup_invariants (words : List DictEntry) :
    IndexOK (buildIndex words) ∧
    ∀ (s : List String) (x : String), addToSet (addToSet s x) x = addToSet s x := by
  constructor
  · exact foldl_preserve (fun _ _ ha => indexOK_processEntry ha) words [] indexOK_nil
  · intro s x
    show (if x ∈ addToSet s x then addToSet s x else addToSet s x ++ [x]) = addToSet s x
    rw [if_pos (mem_addToSet_self s x)]

/-- Witness for C2 on a concrete dictionary with a repeated entry. -/
theorem buildIndex_dedup_invariants_witness :
    IndexOK (buildIndex [demoWithKana, demoWithKana, demoKanjiOnly]) :=
  (buildIndex_dedup_invariants [demoWithKana, demoWithKana, demoKanjiOnly]).1

/-- Claim C8: running the indexer twice on the same unchanged input yields
the same `words` content both times, up to reordering of the arrays within
each bucket: the key sequences agree and every bucket has identical
membership across the two runs. -/
theorem buildIndex_rerun_equiv (words : List DictEntry) :
    wordsEquiv (buildIndex words) (buildIndex words) := by
  refine ⟨rfl, fun k => ?_⟩
  cases (buildIndex words).lookup k with
  | none => exact Or.inl ⟨rfl, rfl⟩
  | some b => exact Or.inr ⟨b, b, rfl, rfl, fun _ => Iff.rfl, fun _ => Iff.rfl⟩

/-- Claim C10: an entry whose kana-reading sequence is absent or empty
contributes nothing to the index: dropping it from the input leaves the
built index unchanged, and a dictionary consisting only of such an entry
produces an empty `words` mapping. -/
theorem kanaless_entry_dropped (pre post : List DictEntry) (e : DictEntry)
    (h : kanaListOf e = []) :
    buildIndex (pre ++ e :: post) = buildIndex (pre ++ post) ∧ buildIndex [e] = [] := by
  have hstep : ∀ idx : Index, processEntry idx e = idx := by
    intro idx
    unfold processEntry
    rw [h]
    rfl
  constructor
  · unfold buildIndex
    rw [List.foldl_append, List.foldl_append]
    simp [hstep]
  · unfold buildIndex
    simp [hstep]

/-- Witness for C10: a kanji-only entry is dropped from a concrete input. -/
theorem kanaless_entry_dropped_witness :
    kanaListOf demoKanjiOnly = [] ∧
    (buildIndex ([] ++ demoKanjiOnly :: [demoWithKana]) = buildIndex ([] ++ [demoWithKana]) ∧
     buildIndex [demoKanjiOnly] = []) :=
  ⟨rfl, kanaless_entry_dropped [] [demoWithKana] demoKanjiOnly rfl⟩

/-- Claim C6 (code-bug evidence): once the plain output file has been
written and the compressed copy is requested, the call can never resolve
`false` any more — the `finish` event carries no error argument, so the
error branch of its handler is dead (the handler would return `false` if an
error were ever passed), and a stream error leaves the promise unresolved
(`none`) instead of resolving `false`. -/
theorem gzip_failure_never_reported :
    (∀ gzipStreamError : Bool,
      writeStage false createGzipVersion gzipStreamError ≠ some false) ∧
    (∀ e : String, gzipFinishHandler (some e) = false) ∧
    writeStage false createGzipVersion false = some true ∧
    writeStage false createGzipVersion true = none := by
  refine ⟨fun g => ?_, fun _ => rfl, rfl, rfl⟩
  cases g <;> simp [writeStage, createGzipVersion, gzipFinishHandler]

end JmdictSimple
